import Mathlib

/-!
Verification development for the loggo repository's core pipeline:
graph construction (`DependencyExtractor`), structural diffing (`DiffEngine`),
atomic patch application (`ApplyService`) and the plan/diff/apply orchestrator
(`AgentService`).  TypeScript records are embedded as Lean structures, JS
`Map`/`Set`/object semantics as association lists with insertion-order
deduplication, and the VS Code I/O surface as an explicit environment record
returning `Except` values.
-/

namespace Loggo

/-- Insertion into a JS `Set` modelled over a list: append the element only if
it is not already present, preserving first-occurrence insertion order. -/
def jsSetInsert (seen : List String) (x : String) : List String :=
  if x ∈ seen then seen else seen ++ [x]

/-- Iteration order of a JS `Set` built from a list: first occurrences, in
order of first insertion. -/
def jsDedup (l : List String) : List String :=
  l.foldl jsSetInsert []

/-- Lookup in a JS object / `Map` modelled as an association list (keys are
unique in actual JS objects; lookup takes the first matching key). -/
def assocFind {α : Type} (m : List (String × α)) (k : String) : Option α :=
  (m.find? (fun kv => kv.1 == k)).map (·.2)

/-- Assignment `m[k] = v` on a JS object modelled as an association list:
overwrite an existing key in place, otherwise append the new key at the end. -/
def assocSet {α : Type} (m : List (String × α)) (k : String) (v : α) :
    List (String × α) :=
  if m.any (fun kv => kv.1 == k) then
    m.map (fun kv => if kv.1 == k then (k, v) else kv)
  else
    m ++ [(k, v)]

/-- Metadata payloads attached to graph nodes by `DependencyExtractor`
(src/analyzer/DependencyExtractor.ts); the diff engine never reads them. -/
inductive Metadata where
  | fileMeta (fullPath : String)
  | fnMeta (isExported isAsync : Bool) (parameters : List String)
  | classMeta (isExported : Bool) (extendsClass : Option String)
      (implementsList : List String)
deriving DecidableEq, Repr

/-- GraphNode from src/types/graph.ts.  `type` holds the string value of the
TS `NodeType` string enum ("file", "function", "class", "method", ...). -/
structure GraphNode where
  id : String
  label : String
  type : String
  filePath : String
  line : Option Nat := none
  column : Option Nat := none
  parentId : Option String := none
  metadata : Option Metadata := none
deriving DecidableEq, Repr

/-- GraphEdge from src/types/graph.ts.  `type` holds the string value of the
TS `EdgeType` string enum ("import", "export", "call", "extends",
"implements", "reference"). -/
structure GraphEdge where
  id : String
  source : String
  target : String
  type : String
  label : Option String := none
deriving DecidableEq, Repr

/-- GraphData from src/types/graph.ts. -/
structure GraphData where
  nodes : List GraphNode
  edges : List GraphEdge
deriving DecidableEq, Repr

/-- DiffStatus from src/types/graph.ts. -/
inductive DiffStatus where
  | touched | added | removed | changed | context | unchanged
deriving DecidableEq, Repr, BEq

/-- FilePatch from src/types/diff.ts: a full-file replacement. -/
structure FilePatch where
  filePath : String
  originalContent : String
  patchedContent : String
deriving DecidableEq, Repr

/-- DiffMeta from src/types/diff.ts.  The three TS `Record`s are modelled as
association lists in key-insertion order. -/
structure DiffMeta where
  nodeStatusById : List (String × DiffStatus)
  edgeStatusByKey : List (String × DiffStatus)
  acceptedByFileId : List (String × Bool)
deriving DecidableEq, Repr

/-- DiffResult from src/types/diff.ts. -/
structure DiffResult where
  beforeGraph : GraphData
  afterGraph : GraphData
  addedNodes : List String
  removedNodes : List String
  changedNodes : List String
  addedEdges : List String
  removedEdges : List String
  diffMeta : DiffMeta
  patches : List FilePatch
deriving DecidableEq, Repr

/-- Last-wins lookup of a node by id, as produced by
`new Map(graph.nodes.map(n => [n.id, n]))`: later entries overwrite earlier
ones. -/
def mapGetNode (ns : List GraphNode) (id : String) : Option GraphNode :=
  ns.foldl (fun acc n => if n.id == id then some n else acc) none

/-- DiffEngine._nodeChanged: shallow comparison of label, type, line, column
(metadata and filePath are not compared). -/
def nodeChanged (before after : GraphNode) : Bool :=
  before.label != after.label ||
  before.type != after.type ||
  before.line != after.line ||
  before.column != after.column

/-- Per-id node classification used by DiffEngine._buildDiffMeta:
added, removed and changed sets first, then the touched-file check on the
node found in `after` (falling back to `before`), else unchanged. -/
def nodeStatusOf (beforeGraph afterGraph : GraphData)
    (addedNodes removedNodes changedNodes touchedFiles : List String)
    (id : String) : DiffStatus :=
  if id ∈ addedNodes then .added
  else if id ∈ removedNodes then .removed
  else if id ∈ changedNodes then .changed
  else
    match (afterGraph.nodes.find? (fun n => n.id == id)).orElse
        (fun _ => beforeGraph.nodes.find? (fun n => n.id == id)) with
    | some node => if node.filePath ∈ touchedFiles then .touched else .unchanged
    | none => .unchanged

/-- DiffEngine._buildDiffMeta: statuses over the union of node ids and of
edge ids from both snapshots, plus the accept map defaulted to `false` for
every touched file path. -/
def buildDiffMeta (beforeGraph afterGraph : GraphData)
    (addedNodes removedNodes changedNodes addedEdges removedEdges
      touchedFiles : List String) : DiffMeta :=
  let allNodeIds := jsDedup
    (beforeGraph.nodes.map (·.id) ++ afterGraph.nodes.map (·.id))
  let nodeStatusById := allNodeIds.map (fun id =>
    (id, nodeStatusOf beforeGraph afterGraph
      addedNodes removedNodes changedNodes touchedFiles id))
  let allEdgeIds := jsDedup
    (beforeGraph.edges.map (·.id) ++ afterGraph.edges.map (·.id))
  let edgeStatusByKey := allEdgeIds.map (fun id =>
    (id, if id ∈ addedEdges then DiffStatus.added
         else if id ∈ removedEdges then DiffStatus.removed
         else DiffStatus.unchanged))
  let acceptedByFileId := touchedFiles.map (fun fp => (fp, false))
  { nodeStatusById := nodeStatusById,
    edgeStatusByKey := edgeStatusByKey,
    acceptedByFileId := acceptedByFileId }

/-- DiffEngine.computeDiff.  Map key iteration order is insertion order, i.e.
first occurrence of each id; map values are last-wins (`mapGetNode`).  The
`touchedFiles` JS `Set` is `jsDedup` of the patches' file paths. -/
def computeDiff (beforeGraph afterGraph : GraphData)
    (patches : List FilePatch) : DiffResult :=
  let beforeNodeIds := jsDedup (beforeGraph.nodes.map (·.id))
  let afterNodeIds := jsDedup (afterGraph.nodes.map (·.id))
  let beforeEdgeIds := jsDedup (beforeGraph.edges.map (·.id))
  let afterEdgeIds := jsDedup (afterGraph.edges.map (·.id))
  let touchedFiles := jsDedup (patches.map (·.filePath))
  let addedNodes := afterNodeIds.filter (fun id => id ∉ beforeNodeIds)
  let changedNodes := afterNodeIds.filter (fun id =>
    id ∈ beforeNodeIds &&
    (match mapGetNode beforeGraph.nodes id, mapGetNode afterGraph.nodes id with
     | some nb, some na => nodeChanged nb na
     | _, _ => false))
  let removedNodes := beforeNodeIds.filter (fun id => id ∉ afterNodeIds)
  let addedEdges := afterEdgeIds.filter (fun id => id ∉ beforeEdgeIds)
  let removedEdges := beforeEdgeIds.filter (fun id => id ∉ afterEdgeIds)
  let diffMeta := buildDiffMeta beforeGraph afterGraph
    addedNodes removedNodes changedNodes addedEdges removedEdges touchedFiles
  { beforeGraph := beforeGraph, afterGraph := afterGraph,
    addedNodes := addedNodes, removedNodes := removedNodes,
    changedNodes := changedNodes, addedEdges := addedEdges,
    removedEdges := removedEdges, diffMeta := diffMeta, patches := patches }

/-- ApplyResult from src/services/ApplyService.ts. -/
structure ApplyResult where
  applied : List String
  skipped : List String
  error : Option String := none
deriving DecidableEq, Repr

/-- One entry of the single `WorkspaceEdit`: a full-range replacement of one
file's content. -/
structure EditOp where
  filePath : String
  content : String
deriving DecidableEq, Repr

/-- Observable side effects of one `applyPatches` run, in order. -/
inductive Eff where
  | openedDoc (path : String)
  | submittedEdit (ops : List EditOp)
  | savedDoc (path : String)
deriving DecidableEq, Repr

/-- Environment abstracting the VS Code workspace primitives used by
`ApplyService.applyPatches`: `openTextDocument` (may throw), `applyEdit`
(may throw, or report failure by returning `false`), and the per-document
save step (may throw). -/
structure ApplyEnv where
  openDoc : String → Except String Unit
  applyEdit : List EditOp → Except String Bool
  saveDoc : String → Except String Unit

/-- Error message of the all-rejected early return in applyPatches. -/
def noAcceptedMsg : String := "No files accepted for apply."

/-- Error message of the applyEdit-returned-false branch in applyPatches. -/
def applyEditFalseMsg : String :=
  "vscode.workspace.applyEdit returned false — no changes were made."

/-- A patch counts as accepted iff its file path maps to strictly `true` in
the accept map (`acceptedByFileId[p.filePath] === true`). -/
def isAccepted (meta : DiffMeta) (fp : String) : Bool :=
  assocFind meta.acceptedByFileId fp == some true

/-- The loop over accepted patches: open each document and extend the edit
with a full-content replacement, pushing the path onto `applied`; a throw
from `openTextDocument` aborts to the surrounding catch. -/
def openAll (env : ApplyEnv) :
    List FilePatch → List Eff × Except String (List String × List EditOp)
  | [] => ([], .ok ([], []))
  | p :: rest =>
    match env.openDoc p.filePath with
    | .error m => ([.openedDoc p.filePath], .error m)
    | .ok _ =>
      let (effs, res) := openAll env rest
      (.openedDoc p.filePath :: effs,
       match res with
       | .error m => .error m
       | .ok (as, ops) =>
         .ok (p.filePath :: as, ⟨p.filePath, p.patchedContent⟩ :: ops))

/-- The save loop after a successful commit; a throw aborts to the catch. -/
def saveAll (env : ApplyEnv) :
    List String → List Eff × Except String Unit
  | [] => ([], .ok ())
  | f :: rest =>
    match env.saveDoc f with
    | .error m => ([.savedDoc f], .error m)
    | .ok _ =>
      let (effs, res) := saveAll env rest
      (.savedDoc f :: effs, res)

/-- ApplyService.applyPatches, instrumented with the list of effects the run
performed.  Mirrors the source control flow: partition into accepted and
rejected, early return when nothing is accepted, otherwise build and submit
one atomic edit inside a try/catch whose catch reports every patch as
skipped. -/
def applyPatchesRun (env : ApplyEnv) (patches : List FilePatch)
    (meta : DiffMeta) : ApplyResult × List Eff :=
  let accepted := patches.filter (fun p => isAccepted meta p.filePath)
  let rejected := patches.filter (fun p => !(isAccepted meta p.filePath))
  let skipped := rejected.map (·.filePath)
  if accepted.isEmpty then
    ({ applied := [], skipped := skipped, error := some noAcceptedMsg }, [])
  else
    match openAll env accepted with
    | (effs, .error m) =>
      ({ applied := [], skipped := patches.map (·.filePath),
         error := some m }, effs)
    | (effs, .ok (applied, ops)) =>
      let effs := effs ++ [.submittedEdit ops]
      match env.applyEdit ops with
      | .error m =>
        ({ applied := [], skipped := patches.map (·.filePath),
           error := some m }, effs)
      | .ok false =>
        ({ applied := [], skipped := applied ++ skipped,
           error := some applyEditFalseMsg }, effs)
      | .ok true =>
        let (effs2, sres) := saveAll env applied
        match sres with
        | .error m =>
          ({ applied := [], skipped := patches.map (·.filePath),
             error := some m }, effs ++ effs2)
        | .ok _ =>
          ({ applied := applied, skipped := skipped, error := none },
           effs ++ effs2)

/-- ApplyService.applyPatches, result only. -/
def applyPatches (env : ApplyEnv) (patches : List FilePatch)
    (meta : DiffMeta) : ApplyResult :=
  (applyPatchesRun env patches meta).1

/-- Whether the atomic-commit portion of the run fails: a throw while opening
documents, a throw from `applyEdit`, `applyEdit` returning `false`, or a
throw while saving. -/
def runFails (env : ApplyEnv) (accepted : List FilePatch) : Bool :=
  match openAll env accepted with
  | (_, .error _) => true
  | (_, .ok (applied, ops)) =>
    match env.applyEdit ops with
    | .error _ => true
    | .ok false => true
    | .ok true =>
      match (saveAll env applied).2 with
      | .error _ => true
      | .ok _ => false

/-- ApplyService.toggleAccept: `acceptedByFileId[filePath] =
!acceptedByFileId[filePath]` with JS truthiness (a missing key reads as
`undefined`, whose negation is `true`). -/
def toggleAccept (meta : DiffMeta) (filePath : String) : DiffMeta :=
  { meta with acceptedByFileId :=
      (assocSet meta.acceptedByFileId filePath
        (!((assocFind meta.acceptedByFileId filePath).getD false))) }

/-- ApplyService.acceptAllTouched: set every known key to `true`. -/
def acceptAllTouched (meta : DiffMeta) : DiffMeta :=
  { meta with acceptedByFileId :=
      meta.acceptedByFileId.map (fun kv => (kv.1, true)) }

/-- ApplyService.acceptNone: set every known key to `false`. -/
def acceptNone (meta : DiffMeta) : DiffMeta :=
  { meta with acceptedByFileId :=
      meta.acceptedByFileId.map (fun kv => (kv.1, false)) }

/-- AgentPhase from src/types/agent.ts. -/
inductive AgentPhase where
  | idle | planning | diffing | reviewing | applying
deriving DecidableEq, Repr

/-- Plan step kind from src/types/diff.ts (`PlanStep.type`). -/
inductive StepType where
  | create | modify | delete | rename
deriving DecidableEq, Repr

/-- Plan step status from src/types/diff.ts (`PlanStep.status`). -/
inductive StepStatus where
  | pending | diffed | applied | rejected
deriving DecidableEq, Repr

/-- PlanStep from src/types/diff.ts. -/
structure PlanStep where
  id : String
  description : String
  filePath : Option String := none
  type : StepType
  status : StepStatus
deriving DecidableEq, Repr

/-- AgentPlan from src/types/diff.ts. -/
structure AgentPlan where
  planSteps : List PlanStep
  touchedFiles : List String
  touchedSymbols : Option (List String) := none
deriving DecidableEq, Repr

/-- ContextItem from src/types/agent.ts (`source` kept as the literal
string of the TS union type). -/
structure ContextItem where
  id : String
  filePath : String
  line : Option Nat := none
  snippet : String
  source : String
  addedAt : Nat
deriving DecidableEq, Repr

/-- Mutable fields of AgentService (src/unnamed/part_004): the phase scalar,
the current plan and the current diff result. -/
structure AgentState where
  phase : AgentPhase := .idle
  plan : Option AgentPlan := none
  diffResult : Option DiffResult := none
deriving DecidableEq, Repr

/-- AgentService.reset: clear plan and diff result, phase to idle. -/
def agentReset (_s : AgentState) : AgentState :=
  { phase := .idle, plan := none, diffResult := none }

/-- One modify-kind pending step of the stub plan: id `step-{i}`,
description `Modify {fp}`. -/
def mkPlanStep (i : Nat) (fp : String) : PlanStep :=
  { id := "step-" ++ toString i, description := "Modify " ++ fp,
    filePath := some fp, type := .modify, status := .pending }

/-- `touchedFiles.map((fp, i) => ...)` with its running index. -/
def stepsFor : Nat → List String → List PlanStep
  | _, [] => []
  | i, fp :: rest => mkPlanStep i fp :: stepsFor (i + 1) rest

/-- AgentService.generatePlan: set phase to planning, derive the plan from
the distinct context file paths (one pending modify step per file), fall
back to a single placeholder step carrying the raw request when no context
was given, store the plan, and return it together with the emitted chat
messages. -/
def generatePlan (s : AgentState) (userRequest : String)
    (context : List ContextItem) : AgentState × AgentPlan × List String :=
  let touchedFiles := jsDedup (context.map (·.filePath))
  let planSteps0 := stepsFor 0 touchedFiles
  let planSteps :=
    if planSteps0.isEmpty then
      [{ id := "step-0", description := userRequest, filePath := none,
         type := .modify, status := .pending }]
    else planSteps0
  let plan : AgentPlan :=
    { planSteps := planSteps, touchedFiles := touchedFiles,
      touchedSymbols := some (context.map (fun c => c.snippet.take 50)) }
  ({ s with phase := .planning, plan := some plan }, plan,
   ["Planning: \"" ++ userRequest ++ "\"…",
    "Plan ready: " ++ toString planSteps.length ++ " step(s), " ++
      toString touchedFiles.length ++
      " file(s). Click \"Generate Diff\" to proceed."])

/-- Message emitted by applyChanges when no diff session exists. -/
def noDiffResultMsg : String := "No diff result available. Generate a diff first."

/-- Plan-step status update after apply: `applied` if the step's file path
is in the applied list, `rejected` if it is in the skipped list. -/
def updatePlanStep (result : ApplyResult) (step : PlanStep) : PlanStep :=
  match step.filePath with
  | some fp =>
    if fp ∈ result.applied then { step with status := .applied }
    else if fp ∈ result.skipped then { step with status := .rejected }
    else step
  | none => step

/-- AgentService.applyChanges: without a current diff result, report an
error and change nothing; otherwise set phase to applying, delegate to
`applyPatches` on the session's patches and accept map, update plan step
statuses from the result, and finish with phase idle whether or not the
apply reported an error. -/
def applyChanges (env : ApplyEnv) (s : AgentState) :
    AgentState × Option ApplyResult × List String :=
  match s.diffResult with
  | none => (s, none, [noDiffResultMsg])
  | some dr =>
    let result := applyPatches env dr.patches dr.diffMeta
    let msgs := ["Applying changes…",
      match result.error with
      | some e => "Apply error: " ++ e
      | none => "Applied " ++ toString result.applied.length ++
          " file(s), skipped " ++ toString result.skipped.length ++ "."]
    let plan' := s.plan.map (fun pl =>
      { pl with planSteps := pl.planSteps.map (updatePlanStep result) })
    ({ s with phase := .idle, plan := plan' }, some result, msgs)

/-- FileInfo from src/types (analyzer types); only `path` is read by the
graph builder. -/
structure FileInfo where
  path : String
  content : String := ""
deriving DecidableEq, Repr

/-- FunctionInfo from src/types (analyzer types). -/
structure FunctionInfo where
  name : String
  filePath : String
  line : Nat
  column : Nat
  isExported : Bool := false
  isAsync : Bool := false
  parameters : List String := []
deriving DecidableEq, Repr

/-- MethodInfo from src/types (analyzer types); fields the builder reads. -/
structure MethodInfo where
  name : String
  filePath : String
  line : Nat
  column : Nat
deriving DecidableEq, Repr

/-- ClassInfo from src/types (analyzer types); `extends` is a Lean keyword,
so that field is named `extendsClass` here. -/
structure ClassInfo where
  name : String
  filePath : String
  line : Nat
  column : Nat
  isExported : Bool := false
  extendsClass : Option String := none
  implementsList : List String := []
  methods : List MethodInfo := []
deriving DecidableEq, Repr

/-- ImportInfo from src/types (analyzer types); `from` is a Lean keyword, so
that field is named `fromFile` here. -/
structure ImportInfo where
  fromFile : String
  imports : List String
deriving DecidableEq, Repr

/-- AnalysisResult from src/types (analyzer types); the graph builder reads
files, functions, classes and imports. -/
structure AnalysisResult where
  files : List FileInfo := []
  functions : List FunctionInfo := []
  classes : List ClassInfo := []
  imports : List ImportInfo := []
deriving DecidableEq, Repr

/-- `path.basename`: the last slash-separated component of a path. -/
def basename (p : String) : String :=
  ((p.splitOn "/").getLast?).getD p

/-- Insertion into the `nodeMap` (a JS `Map` in insertion order): first
writer wins, a duplicate id is a no-op. -/
def addNode (ns : List GraphNode) (n : GraphNode) : List GraphNode :=
  if ns.any (fun m => m.id == n.id) then ns else ns ++ [n]

/-- Insertion into the `edgeMap`: first writer wins per edge id. -/
def addEdge (es : List GraphEdge) (e : GraphEdge) : List GraphEdge :=
  if es.any (fun f => f.id == e.id) then es else es ++ [e]

/-- DependencyExtractor.addFileNode. -/
def addFileNode (ns : List GraphNode) (filePath : String) : List GraphNode :=
  addNode ns
    { id := "file:" ++ filePath, label := basename filePath, type := "file",
      filePath := filePath, metadata := some (.fileMeta filePath) }

/-- DependencyExtractor.addFunctionNode. -/
def addFunctionNode (ns : List GraphNode) (fn : FunctionInfo) :
    List GraphNode :=
  addNode ns
    { id := "function:" ++ fn.filePath ++ ":" ++ fn.name, label := fn.name,
      type := "function", filePath := fn.filePath, line := some fn.line,
      column := some fn.column, parentId := some ("file:" ++ fn.filePath),
      metadata := some (.fnMeta fn.isExported fn.isAsync fn.parameters) }

/-- DependencyExtractor.addClassNode. -/
def addClassNode (ns : List GraphNode) (cls : ClassInfo) : List GraphNode :=
  addNode ns
    { id := "class:" ++ cls.filePath ++ ":" ++ cls.name, label := cls.name,
      type := "class", filePath := cls.filePath, line := some cls.line,
      column := some cls.column, parentId := some ("file:" ++ cls.filePath),
      metadata := some (.classMeta cls.isExported cls.extendsClass
        cls.implementsList) }

/-- DependencyExtractor.addMethodNode. -/
def addMethodNode (ns : List GraphNode) (method : MethodInfo)
    (cls : ClassInfo) : List GraphNode :=
  addNode ns
    { id := "method:" ++ method.filePath ++ ":" ++ cls.name ++ "." ++
        method.name,
      label := cls.name ++ "." ++ method.name, type := "method",
      filePath := method.filePath, line := some method.line,
      column := some method.column,
      parentId := some ("class:" ++ cls.filePath ++ ":" ++ cls.name) }

/-- DependencyExtractor.findNodeByName: linear scan in map insertion order,
first node whose label and type match. -/
def findNodeByName (ns : List GraphNode) (name : String) (type : String) :
    Option String :=
  (ns.find? (fun n => n.label == name && n.type == type)).map (·.id)

/-- DependencyExtractor.addImportEdges: ensure the importing file's node
exists, then for each imported name linearly scan the node map for the first
function or class node with that label and add one import edge to it;
unresolved names are silently skipped. -/
def addImportEdges (st : List GraphNode × List GraphEdge)
    (imp : ImportInfo) : List GraphNode × List GraphEdge :=
  let sourceFileId := "file:" ++ imp.fromFile
  let ns :=
    if st.1.any (fun m => m.id == sourceFileId) then st.1
    else addFileNode st.1 imp.fromFile
  let es := imp.imports.foldl (fun es name =>
    match ns.find? (fun n =>
        n.label == name && (n.type == "function" || n.type == "class")) with
    | some tgt =>
      addEdge es
        { id := "import:" ++ sourceFileId ++ ":" ++ tgt.id,
          source := sourceFileId, target := tgt.id, type := "import",
          label := some name }
    | none => es) st.2
  (ns, es)

/-- DependencyExtractor.addInheritanceEdges: extends and implements edges by
exact label-and-type lookup; omitted when the name does not resolve. -/
def addInheritanceEdges (ns : List GraphNode) (es : List GraphEdge)
    (cls : ClassInfo) : List GraphEdge :=
  let classId := "class:" ++ cls.filePath ++ ":" ++ cls.name
  let es :=
    match cls.extendsClass with
    | some parentName =>
      match findNodeByName ns parentName "class" with
      | some parentId =>
        addEdge es
          { id := "extends:" ++ classId ++ ":" ++ parentId,
            source := classId, target := parentId, type := "extends",
            label := some "extends" }
      | none => es
    | none => es
  cls.implementsList.foldl (fun es iface =>
    match findNodeByName ns iface "interface" with
    | some ifaceId =>
      addEdge es
        { id := "implements:" ++ classId ++ ":" ++ ifaceId,
          source := classId, target := ifaceId, type := "implements",
          label := some "implements" }
    | none => es) es

/-- The containment edge created by DependencyExtractor.addContainsEdges for
a parent id and a child node id: note its `type` is the `EdgeType.Reference`
enum value `"reference"`, labelled `"contains"`. -/
def containsEdge (parentId childId : String) : GraphEdge :=
  { id := "parent:" ++ parentId ++ ":" ++ childId, source := parentId,
    target := childId, type := "reference", label := some "contains" }

/-- DependencyExtractor.addContainsEdges: for every node of the map whose
parentId resolves to an existing node, add the containment edge. -/
def addContainsEdges (ns : List GraphNode) (es : List GraphEdge) :
    List GraphEdge :=
  ns.foldl (fun es n =>
    match n.parentId with
    | some p =>
      if ns.any (fun m => m.id == p) then addEdge es (containsEdge p n.id)
      else es
    | none => es) es

/-- Stages 1-3 of DependencyExtractor.extractGraphData: file nodes, then
function nodes, then class and method nodes. -/
def nodesAfterClasses (result : AnalysisResult) : List GraphNode :=
  let ns := result.files.foldl (fun ns f => addFileNode ns f.path) []
  let ns := result.functions.foldl addFunctionNode ns
  result.classes.foldl (fun ns cls =>
    (cls.methods.foldl (fun ns m => addMethodNode ns m cls)
      (addClassNode ns cls))) ns

/-- Stage 4 of extractGraphData: the import-edge loop, which may also add
missing source file nodes. -/
def importStage (result : AnalysisResult) :
    List GraphNode × List GraphEdge :=
  result.imports.foldl addImportEdges (nodesAfterClasses result, [])

/-- The body of DependencyExtractor.extractGraphData after the initial
`clear()` calls: file nodes, function nodes, class and method nodes, import
edges (which may add missing file nodes), inheritance edges, containment
edges.  The unused `analyzer` parameter of the TS method is omitted. -/
def extractGraphDataPure (result : AnalysisResult) : GraphData :=
  let ns := (importStage result).1
  let es := (importStage result).2
  let es := result.classes.foldl (addInheritanceEdges ns) es
  let es := addContainsEdges ns es
  { nodes := ns, edges := es }

/-- The instance state of a DependencyExtractor: the node and edge maps held
as fields between calls (`fileToNodes` is written but never read). -/
structure DependencyExtractor where
  nodeMap : List GraphNode := []
  edgeMap : List GraphEdge := []
deriving DecidableEq, Repr

/-- DependencyExtractor.extractGraphData on an instance: the method first
clears `nodeMap`, `edgeMap` and `fileToNodes`, so the produced snapshot is a
function of `result` alone; the instance is left holding the fresh maps. -/
def extractGraphData (st : DependencyExtractor) (result : AnalysisResult) :
    DependencyExtractor × GraphData :=
  let _ := st
  let g := extractGraphDataPure result
  ({ nodeMap := g.nodes, edgeMap := g.edges }, g)

/-! Helper lemmas about the JS `Set`/`Map`/object models. -/

theorem jsDedup_go_mem (l : List String) :
    ∀ (acc : List String) (x : String),
      x ∈ l.foldl jsSetInsert acc ↔ x ∈ acc ∨ x ∈ l := by
  induction l with
  | nil => intro acc x; simp
  | cons a t ih =>
    intro acc x
    simp only [List.foldl_cons, ih, jsSetInsert]
    by_cases ha : a ∈ acc
    · simp only [if_pos ha, List.mem_cons]
      constructor
      · rintro (h | h)
        · exact Or.inl h
        · exact Or.inr (Or.inr h)
      · rintro (h | h | h)
        · exact Or.inl h
        · exact Or.inl (h ▸ ha)
        · exact Or.inr h
    · simp only [if_neg ha, List.mem_append, List.mem_singleton,
        List.mem_cons]
      tauto

theorem jsDedup_mem (l : List String) (x : String) :
    x ∈ jsDedup l ↔ x ∈ l := by
  simp [jsDedup, jsDedup_go_mem]

theorem jsDedup_go_nodup (l : List String) :
    ∀ acc : List String, acc.Nodup → (l.foldl jsSetInsert acc).Nodup := by
  induction l with
  | nil => intro acc h; simpa using h
  | cons a t ih =>
    intro acc h
    simp only [List.foldl_cons]
    apply ih
    unfold jsSetInsert
    by_cases ha : a ∈ acc
    · simpa [ha] using h
    · simp only [if_neg ha]
      refine List.nodup_append.2 ⟨h, List.nodup_singleton a, ?_⟩
      intro x hx hxa
      rw [List.mem_singleton] at hxa
      exact ha (hxa ▸ hx)

theorem jsDedup_nodup (l : List String) : (jsDedup l).Nodup :=
  jsDedup_go_nodup l [] List.nodup_nil

theorem jsDedup_toFinset (l : List String) :
    (jsDedup l).toFinset = l.toFinset := by
  ext x
  simp [jsDedup_mem]

theorem jsDedup_ne_nil (l : List String) (h : l ≠ []) : jsDedup l ≠ [] := by
  match l with
  | [] => exact absurd rfl h
  | a :: t =>
    intro hcontra
    have : a ∈ jsDedup (a :: t) := (jsDedup_mem _ _).2 (List.mem_cons_self a t)
    rw [hcontra] at this
    exact absurd this (List.not_mem_nil a)

theorem assocFind_graph (l : List String) (f : String → α) (id : String)
    (h : id ∈ l) :
    assocFind (l.map (fun x => (x, f x))) id = some (f id) := by
  induction l with
  | nil => cases h
  | cons a t ih =>
    simp only [List.map_cons]
    by_cases ha : a = id
    · subst ha
      simp [assocFind, List.find?]
    · have ht : id ∈ t := by
        rcases List.mem_cons.1 h with h' | h'
        · exact absurd h'.symm ha
        · exact h'
      have : (a == id) = false := by simpa using ha
      simpa [assocFind, List.find?, this] using ih ht

theorem assocFind_graph_keys (l : List String) (f : String → α) :
    (l.map (fun x => (x, f x))).map Prod.fst = l := by
  simp [Function.comp_def]

/-- C2: for every computeDiff(before, after, patches), the key set of
diffMeta.nodeStatusById equals the union of the node ids of before and
after, and the key set of diffMeta.edgeStatusByKey equals the union of the
edge ids of before and after. -/
theorem computeDiff_union_completeness (beforeGraph afterGraph : GraphData)
    (patches : List FilePatch) :
    (((computeDiff beforeGraph afterGraph patches).diffMeta.nodeStatusById.map
        Prod.fst).toFinset
      = (beforeGraph.nodes.map (·.id)).toFinset ∪
        (afterGraph.nodes.map (·.id)).toFinset) ∧
    (((computeDiff beforeGraph afterGraph patches).diffMeta.edgeStatusByKey.map
        Prod.fst).toFinset
      = (beforeGraph.edges.map (·.id)).toFinset ∪
        (afterGraph.edges.map (·.id)).toFinset) := by
  constructor <;>
    simp [computeDiff, buildDiffMeta, assocFind_graph_keys,
      jsDedup_toFinset, List.toFinset_append, Function.comp_def]

theorem jsDedup_nil : jsDedup [] = [] := rfl

theorem nodeChanged_self (n : GraphNode) : nodeChanged n n = false := by
  simp [nodeChanged]

theorem nodeStatusOf_nil (b a : GraphData) (id : String) :
    nodeStatusOf b a [] [] [] [] id = .unchanged := by
  unfold nodeStatusOf
  simp only [List.not_mem_nil, if_false]
  cases (a.nodes.find? (fun n => n.id == id)).orElse
      (fun _ => b.nodes.find? (fun n => n.id == id)) with
  | none => rfl
  | some n => simp

theorem filter_not_mem_self (l : List String) :
    l.filter (fun id => decide (id ∉ l)) = [] := by
  rw [List.filter_eq_nil_iff]
  intro a ha
  simp [ha]

theorem filter_changed_self (ns : List GraphNode) (keys : List String) :
    keys.filter (fun id => decide (id ∈ keys) &&
      (match mapGetNode ns id, mapGetNode ns id with
       | some nb, some na => nodeChanged nb na
       | _, _ => false)) = [] := by
  rw [List.filter_eq_nil_iff]
  intro a _
  cases h : mapGetNode ns a <;> simp [h, nodeChanged_self]

/-- C4: computeDiff(G, G, []) yields empty added/removed/changed node lists,
empty added/removed edge lists, and every status in nodeStatusById and
edgeStatusByKey mapped to unchanged. -/
theorem computeDiff_self_identity (G : GraphData) :
    (computeDiff G G []).addedNodes = [] ∧
    (computeDiff G G []).removedNodes = [] ∧
    (computeDiff G G []).changedNodes = [] ∧
    (computeDiff G G []).addedEdges = [] ∧
    (computeDiff G G []).removedEdges = [] ∧
    ((computeDiff G G []).diffMeta.nodeStatusById.all
      (fun kv => kv.2 == DiffStatus.unchanged)) = true ∧
    ((computeDiff G G []).diffMeta.edgeStatusByKey.all
      (fun kv => kv.2 == DiffStatus.unchanged)) = true := by
  refine ⟨?_, ?_, ?_, ?_, ?_, ?_, ?_⟩ <;>
    simp only [computeDiff, buildDiffMeta, filter_not_mem_self,
      filter_changed_self, List.map_nil, jsDedup_nil, nodeStatusOf_nil,
      List.not_mem_nil, if_false, List.all_map] <;>
    simp [List.all_eq_true, nodeStatusOf_nil] <;>
    exact fun _ _ => rfl

/-! Characterization of the last-wins map lookup `mapGetNode`. -/

theorem mapGetNode_go_sound (ns : List GraphNode) (id : String)
    (n : GraphNode) :
    ∀ acc : Option GraphNode,
      ns.foldl (fun acc m => if m.id == id then some m else acc) acc = some n →
      (n ∈ ns ∧ n.id = id) ∨ acc = some n := by
  induction ns with
  | nil => intro acc h; exact Or.inr h
  | cons m t ih =>
    intro acc h
    rcases ih _ h with h' | h'
    · exact Or.inl ⟨List.mem_cons_of_mem m h'.1, h'.2⟩
    · have h'' : (if (m.id == id) = true then some m else acc) = some n := h'
      by_cases hm : (m.id == id) = true
      · rw [if_pos hm] at h''
        injection h'' with he
        subst he
        exact Or.inl ⟨List.mem_cons_self m t, eq_of_beq hm⟩
      · rw [if_neg hm] at h''
        exact Or.inr h''

theorem mapGetNode_sound {ns : List GraphNode} {id : String} {n : GraphNode}
    (h : mapGetNode ns id = some n) : n ∈ ns ∧ n.id = id := by
  rcases mapGetNode_go_sound ns id n none h with h' | h'
  · exact h'
  · cases h'

theorem mapGetNode_go_skip (ns : List GraphNode) (id : String)
    (hskip : ∀ x ∈ ns, x.id ≠ id) (acc : Option GraphNode) :
    ns.foldl (fun acc m => if m.id == id then some m else acc) acc = acc := by
  induction ns generalizing acc with
  | nil => rfl
  | cons m t ih =>
    have hm : (m.id == id) = false := by
      simpa using hskip m (List.mem_cons_self m t)
    simp only [List.foldl_cons, hm, if_false]
    exact ih (fun x hx => hskip x (List.mem_cons_of_mem m hx)) acc

theorem mapGetNode_complete {ns : List GraphNode} {id : String}
    {n : GraphNode} (hnd : (ns.map (·.id)).Nodup) (hn : n ∈ ns)
    (hid : n.id = id) : mapGetNode ns id = some n := by
  induction ns with
  | nil => cases hn
  | cons m t ih =>
    rw [List.map_cons, List.nodup_cons] at hnd
    rcases List.mem_cons.1 hn with h' | h'
    · subst h'
      have hm : (n.id == id) = true := by simpa using hid
      unfold mapGetNode
      simp only [List.foldl_cons, hm, if_true]
      apply mapGetNode_go_skip
      intro x hx hxid
      have hmem : x.id ∈ t.map (·.id) := List.mem_map_of_mem (·.id) hx
      rw [hxid, ← hid] at hmem
      exact hnd.1 hmem
    · have hm : (m.id == id) = false := by
        simp only [beq_eq_false_iff_ne, ne_eq]
        intro hcontra
        have hmem : n.id ∈ t.map (·.id) := List.mem_map_of_mem (·.id) h'
        rw [hid, ← hcontra] at hmem
        exact hnd.1 hmem
      unfold mapGetNode at ih ⊢
      simp only [List.foldl_cons, hm, if_false]
      exact ih hnd.2 h'

theorem mapGetNode_go_none (ns : List GraphNode) (id : String) :
    ∀ acc : Option GraphNode,
      ns.foldl (fun acc m => if m.id == id then some m else acc) acc = none →
      acc = none ∧ ∀ x ∈ ns, x.id ≠ id := by
  induction ns with
  | nil =>
    intro acc h
    exact ⟨h, by intro x hx; cases hx⟩
  | cons m t ih =>
    intro acc h
    rcases ih _ h with ⟨hstep, ht⟩
    have hstep' : (if (m.id == id) = true then some m else acc) = none := hstep
    by_cases hm : (m.id == id) = true
    · rw [if_pos hm] at hstep'; cases hstep'
    · rw [if_neg hm] at hstep'
      refine ⟨hstep', ?_⟩
      intro x hx
      rcases List.mem_cons.1 hx with h' | h'
      · subst h'; simpa using hm
      · exact ht x h'

theorem mapGetNode_isSome_of_mem {ns : List GraphNode} {id : String}
    (h : id ∈ ns.map (·.id)) : ∃ n, mapGetNode ns id = some n := by
  cases hg : mapGetNode ns id with
  | some n => exact ⟨n, rfl⟩
  | none =>
    rcases mapGetNode_go_none ns id none hg with ⟨_, hall⟩
    rcases List.mem_map.1 h with ⟨x, hx, hxid⟩
    exact absurd hxid (hall x hx)

/-- The claim's classification cascade, stated from the spec's wording:
added (present only in after), then removed (present only in before), then
changed (present in both copies with differing label, kind, line or column),
then touched (the node's filePath appears among the patches' file paths,
taking the after snapshot's copy first), else unchanged. -/
def specNodeStatus (beforeGraph afterGraph : GraphData)
    (patchPaths : List String) (id : String) : DiffStatus :=
  if id ∈ afterGraph.nodes.map (·.id) ∧ id ∉ beforeGraph.nodes.map (·.id) then
    .added
  else if id ∈ beforeGraph.nodes.map (·.id) ∧
      id ∉ afterGraph.nodes.map (·.id) then
    .removed
  else if ∃ nb ∈ beforeGraph.nodes, ∃ na ∈ afterGraph.nodes,
      nb.id = id ∧ na.id = id ∧ nodeChanged nb na = true then
    .changed
  else
    match (afterGraph.nodes ++ beforeGraph.nodes).find?
        (fun n => n.id == id) with
    | some n => if n.filePath ∈ patchPaths then .touched else .unchanged
    | none => .unchanged

theorem touched_tail_eq (beforeGraph afterGraph : GraphData)
    (patches : List FilePatch) (id : String) :
    (match (afterGraph.nodes.find? (fun n => n.id == id)).orElse
        (fun _ => beforeGraph.nodes.find? (fun n => n.id == id)) with
     | some node =>
       if node.filePath ∈ jsDedup (patches.map (fun p : FilePatch => p.filePath)) then
         DiffStatus.touched
       else DiffStatus.unchanged
     | none => DiffStatus.unchanged)
    = (match (afterGraph.nodes ++ beforeGraph.nodes).find?
        (fun n => n.id == id) with
       | some node =>
         if node.filePath ∈ patches.map (fun p : FilePatch => p.filePath) then
           DiffStatus.touched
         else DiffStatus.unchanged
       | none => DiffStatus.unchanged) := by
  rw [List.find?_append]
  cases afterGraph.nodes.find? (fun n => n.id == id) with
  | some n => simp [Option.orElse, Option.or, jsDedup_mem]
  | none =>
    cases beforeGraph.nodes.find? (fun n => n.id == id) with
    | some n => simp [Option.orElse, Option.or, jsDedup_mem]
    | none => simp [Option.orElse, Option.or]

theorem nodeStatusOf_eq_spec (beforeGraph afterGraph : GraphData)
    (patches : List FilePatch) (id : String)
    (hb : (beforeGraph.nodes.map (·.id)).Nodup)
    (ha : (afterGraph.nodes.map (·.id)).Nodup) :
    nodeStatusOf beforeGraph afterGraph
      ((jsDedup (afterGraph.nodes.map (·.id))).filter
        (fun id => id ∉ jsDedup (beforeGraph.nodes.map (·.id))))
      ((jsDedup (beforeGraph.nodes.map (·.id))).filter
        (fun id => id ∉ jsDedup (afterGraph.nodes.map (·.id))))
      ((jsDedup (afterGraph.nodes.map (·.id))).filter (fun id =>
        id ∈ jsDedup (beforeGraph.nodes.map (·.id)) &&
        (match mapGetNode beforeGraph.nodes id,
            mapGetNode afterGraph.nodes id with
         | some nb, some na => nodeChanged nb na
         | _, _ => false)))
      (jsDedup (patches.map (·.filePath)))
      id
    = specNodeStatus beforeGraph afterGraph (patches.map (·.filePath)) id := by
  have hAddIff : (id ∈ (jsDedup (afterGraph.nodes.map (·.id))).filter
      (fun id => id ∉ jsDedup (beforeGraph.nodes.map (·.id))))
      ↔ (id ∈ afterGraph.nodes.map (·.id) ∧
         id ∉ beforeGraph.nodes.map (·.id)) := by
    simp [List.mem_filter, jsDedup_mem]
  have hRemIff : (id ∈ (jsDedup (beforeGraph.nodes.map (·.id))).filter
      (fun id => id ∉ jsDedup (afterGraph.nodes.map (·.id))))
      ↔ (id ∈ beforeGraph.nodes.map (·.id) ∧
         id ∉ afterGraph.nodes.map (·.id)) := by
    simp [List.mem_filter, jsDedup_mem]
  have hChIff : (id ∈ (jsDedup (afterGraph.nodes.map (·.id))).filter (fun id =>
      id ∈ jsDedup (beforeGraph.nodes.map (·.id)) &&
      (match mapGetNode beforeGraph.nodes id,
          mapGetNode afterGraph.nodes id with
       | some nb, some na => nodeChanged nb na
       | _, _ => false)))
      ↔ (∃ nb ∈ beforeGraph.nodes, ∃ na ∈ afterGraph.nodes,
          nb.id = id ∧ na.id = id ∧ nodeChanged nb na = true) := by
    rw [List.mem_filter]
    constructor
    · rintro ⟨hmemA, hpred⟩
      rw [Bool.and_eq_true] at hpred
      obtain ⟨hmemB, hmatch⟩ := hpred
      rw [decide_eq_true_eq, jsDedup_mem] at hmemB
      rw [jsDedup_mem] at hmemA
      obtain ⟨nb, hgb⟩ := mapGetNode_isSome_of_mem hmemB
      obtain ⟨na, hga⟩ := mapGetNode_isSome_of_mem hmemA
      rw [hgb, hga] at hmatch
      obtain ⟨hnbmem, hnbid⟩ := mapGetNode_sound hgb
      obtain ⟨hnamem, hnaid⟩ := mapGetNode_sound hga
      exact ⟨nb, hnbmem, na, hnamem, hnbid, hnaid, hmatch⟩
    · rintro ⟨nb, hnb, na, hna, hnbid, hnaid, hch⟩
      have hmemB : id ∈ beforeGraph.nodes.map (·.id) :=
        List.mem_map.2 ⟨nb, hnb, hnbid⟩
      have hmemA : id ∈ afterGraph.nodes.map (·.id) :=
        List.mem_map.2 ⟨na, hna, hnaid⟩
      refine ⟨(jsDedup_mem _ _).2 hmemA, ?_⟩
      rw [Bool.and_eq_true]
      constructor
      · rw [decide_eq_true_eq, jsDedup_mem]; exact hmemB
      · rw [mapGetNode_complete hb hnb hnbid,
          mapGetNode_complete ha hna hnaid]
        exact hch
  unfold nodeStatusOf specNodeStatus
  simp only [hAddIff, hRemIff, hChIff]
  split_ifs <;> first
    | rfl
    | exact touched_tail_eq beforeGraph afterGraph patches id

/-- C3: for every computeDiff and every id in the union of both snapshots
(with unique ids per snapshot), nodeStatusById classifies by strict
priority: added (only in after), removed (only in before), changed
(differing label, kind, line or column), touched (node's filePath among the
patches' file paths), unchanged; in particular an id present only in after
is classified added even when its file path appears in the patch set. -/
theorem computeDiff_status_priority (beforeGraph afterGraph : GraphData)
    (patches : List FilePatch) (id : String)
    (hb : (beforeGraph.nodes.map (·.id)).Nodup)
    (ha : (afterGraph.nodes.map (·.id)).Nodup)
    (hid : id ∈ beforeGraph.nodes.map (·.id) ∨
      id ∈ afterGraph.nodes.map (·.id)) :
    (assocFind
        (computeDiff beforeGraph afterGraph patches).diffMeta.nodeStatusById
        id
      = some (specNodeStatus beforeGraph afterGraph
          (patches.map (·.filePath)) id)) ∧
    (id ∈ afterGraph.nodes.map (·.id) → id ∉ beforeGraph.nodes.map (·.id) →
      assocFind
        (computeDiff beforeGraph afterGraph patches).diffMeta.nodeStatusById
        id
      = some DiffStatus.added) := by
  have hmemAll : id ∈ jsDedup
      (beforeGraph.nodes.map (·.id) ++ afterGraph.nodes.map (·.id)) := by
    rw [jsDedup_mem, List.mem_append]; exact hid
  have hfind : assocFind
      (computeDiff beforeGraph afterGraph patches).diffMeta.nodeStatusById id
      = some (specNodeStatus beforeGraph afterGraph
          (patches.map (·.filePath)) id) := by
    simp only [computeDiff, buildDiffMeta]
    rw [assocFind_graph _ _ _ hmemAll]
    rw [nodeStatusOf_eq_spec beforeGraph afterGraph patches id hb ha]
  refine ⟨hfind, ?_⟩
  intro hina hninb
  rw [hfind]
  simp [specNodeStatus, hina, hninb]

/-- Before-snapshot fixture for the status-priority check. -/
def graphBeforeW : GraphData :=
  { nodes := [{ id := "file:old.ts", label := "old.ts", type := "file",
                filePath := "old.ts" }],
    edges := [] }

/-- After-snapshot fixture: keeps the old node and adds a node whose file is
also touched by the patch set (added must beat touched). -/
def graphAfterW : GraphData :=
  { nodes := [{ id := "file:old.ts", label := "old.ts", type := "file",
                filePath := "old.ts" },
              { id := "file:new.ts", label := "new.ts", type := "file",
                filePath := "new.ts" }],
    edges := [] }

/-- Concrete check of `computeDiff_status_priority`: the id present only in
the after snapshot is classified added although its file path is in the
patch set. -/
theorem computeDiff_status_priority_witness :
    ("file:new.ts" ∈ graphAfterW.nodes.map (·.id)) ∧
    ("file:new.ts" ∉ graphBeforeW.nodes.map (·.id)) ∧
    assocFind (computeDiff graphBeforeW graphAfterW
        [⟨"new.ts", "orig", "patched"⟩]).diffMeta.nodeStatusById "file:new.ts"
      = some DiffStatus.added :=
  ⟨by decide, by decide,
   (computeDiff_status_priority graphBeforeW graphAfterW
      [⟨"new.ts", "orig", "patched"⟩] "file:new.ts"
      (by decide) (by decide) (by decide)).2 (by decide) (by decide)⟩

/-! Behaviour of object assignment (`assocSet`) under lookup. -/

theorem assocSet_find_self {α : Type} (m : List (String × α)) (k : String)
    (v : α) : assocFind (assocSet m k v) k = some v := by
  unfold assocSet
  by_cases h : m.any (fun kv => kv.1 == k) = true
  · rw [if_pos h]
    induction m with
    | nil => cases h
    | cons a t ih =>
      by_cases ha : (a.1 == k) = true
      · simp [assocFind, List.find?, ha]
      · rw [List.any_cons, Bool.or_eq_true] at h
        rcases h with h' | h'
        · exact absurd h' ha
        · have := ih h'
          simpa [assocFind, List.find?, ha] using this
  · rw [if_neg h]
    rw [Bool.not_eq_true, List.any_eq_false] at h
    induction m with
    | nil => simp [assocFind, List.find?]
    | cons a t ih =>
      have ha : (a.1 == k) = false := by
        simpa using h a (List.mem_cons_self a t)
      have ht : ∀ x ∈ t, ¬(x.1 == k) = true :=
        fun x hx => h x (List.mem_cons_of_mem a hx)
      simpa [assocFind, List.find?, ha] using ih ht

theorem assocSet_find_other {α : Type} (m : List (String × α)) (k q : String)
    (v : α) (hq : q ≠ k) :
    assocFind (assocSet m k v) q = assocFind m q := by
  have hkq : (k == q) = false := by
    simp only [beq_eq_false_iff_ne, ne_eq]
    exact fun hcontra => hq hcontra.symm
  unfold assocSet
  by_cases h : m.any (fun kv => kv.1 == k) = true
  · rw [if_pos h]
    clear h
    induction m with
    | nil => rfl
    | cons a t ih =>
      by_cases ha : (a.1 == k) = true
      · have haq : (a.1 == q) = false := by
          have : a.1 = k := eq_of_beq ha
          simp only [beq_eq_false_iff_ne, ne_eq, this]
          exact fun hcontra => hq hcontra.symm
        simpa [assocFind, List.find?, ha, hkq, haq] using ih
      · by_cases haq : (a.1 == q) = true
        · simp [assocFind, List.find?, ha, haq]
        · simpa [assocFind, List.find?, ha, haq] using ih
  · rw [if_neg h]
    unfold assocFind
    rw [List.find?_append]
    cases hf : m.find? (fun kv => kv.1 == q) with
    | some kv => simp [hf]
    | none => simp [hf, List.find?, hkq]

/-- C10: toggleAccept sets the entry for the given path to the negation of
its previous truthiness (inserting `true` when the key was absent) and
changes no other entry of the accept map, nor the status maps. -/
theorem toggleAccept_spec (meta : DiffMeta) (filePath : String) :
    (assocFind (toggleAccept meta filePath).acceptedByFileId filePath
      = some (!((assocFind meta.acceptedByFileId filePath).getD false))) ∧
    (∀ q, q ≠ filePath →
      assocFind (toggleAccept meta filePath).acceptedByFileId q
        = assocFind meta.acceptedByFileId q) ∧
    (assocFind meta.acceptedByFileId filePath = none →
      assocFind (toggleAccept meta filePath).acceptedByFileId filePath
        = some true) ∧
    (toggleAccept meta filePath).nodeStatusById = meta.nodeStatusById ∧
    (toggleAccept meta filePath).edgeStatusByKey = meta.edgeStatusByKey := by
  refine ⟨assocSet_find_self _ _ _, ?_, ?_, rfl, rfl⟩
  · intro q hq
    exact assocSet_find_other _ _ _ _ hq
  · intro hnone
    simp only [toggleAccept]
    rw [hnone]
    simpa using assocSet_find_self meta.acceptedByFileId filePath
      (!((none : Option Bool).getD false))

/-- Concrete check of `toggleAccept_spec`: toggling an absent key inserts
`true`; the entry for another key is untouched. -/
theorem toggleAccept_spec_witness :
    (assocFind (toggleAccept
        { nodeStatusById := [], edgeStatusByKey := [],
          acceptedByFileId := [("a", false)] } "b").acceptedByFileId "b"
      = some true) ∧
    (assocFind (toggleAccept
        { nodeStatusById := [], edgeStatusByKey := [],
          acceptedByFileId := [("a", false)] } "b").acceptedByFileId "a"
      = assocFind
          (DiffMeta.acceptedByFileId
            { nodeStatusById := [], edgeStatusByKey := [],
              acceptedByFileId := [("a", false)] }) "a") :=
  ⟨(toggleAccept_spec
      { nodeStatusById := [], edgeStatusByKey := [],
        acceptedByFileId := [("a", false)] } "b").2.2.1 (by decide),
   (toggleAccept_spec
      { nodeStatusById := [], edgeStatusByKey := [],
        acceptedByFileId := [("a", false)] } "b").2.1 "a" (by decide)⟩

/-! ApplyService: atomicity and short-circuit behaviour. -/

theorem openAll_ok (env : ApplyEnv) :
    ∀ (ps : List FilePatch) (effs : List Eff) (as : List String)
      (ops : List EditOp),
      openAll env ps = (effs, .ok (as, ops)) →
      as = ps.map (·.filePath) ∧
      ops = ps.map (fun p => ⟨p.filePath, p.patchedContent⟩) := by
  intro ps
  induction ps with
  | nil =>
    intro effs as ops h
    unfold openAll at h
    simp only [Prod.mk.injEq, Except.ok.injEq] at h
    exact ⟨h.2.1.symm, h.2.2.symm⟩
  | cons p rest ih =>
    intro effs as ops h
    unfold openAll at h
    cases hopen : env.openDoc p.filePath with
    | error m => rw [hopen] at h; simp at h
    | ok u =>
      rw [hopen] at h
      rcases hrec : openAll env rest with ⟨effs', res'⟩
      rw [hrec] at h
      cases res' with
      | error m => simp at h
      | ok pr =>
        obtain ⟨as', ops'⟩ := pr
        obtain ⟨h1, h2⟩ := ih effs' as' ops' hrec
        simp only [Prod.mk.injEq, Except.ok.injEq] at h
        constructor
        · rw [← h.2.1, h1, List.map_cons]
        · rw [← h.2.2, h2, List.map_cons]

/-- C5: when no patch's file path is mapped to strictly true in the accept
map, applyPatches returns applied = [], skipped = the file paths of all
patches, the explicit no-files-accepted error, and performs no effect at
all (no document opened, no edit constructed or submitted, nothing saved or
written). -/
theorem applyPatches_all_rejected (env : ApplyEnv) (patches : List FilePatch)
    (meta : DiffMeta)
    (h : ∀ p ∈ patches, isAccepted meta p.filePath = false) :
    applyPatchesRun env patches meta =
      ({ applied := [], skipped := patches.map (·.filePath),
         error := some noAcceptedMsg }, []) := by
  have hacc : patches.filter (fun p => isAccepted meta p.filePath) = [] := by
    rw [List.filter_eq_nil_iff]
    intro p hp
    rw [h p hp]
    simp
  have hrej : patches.filter (fun p => !(isAccepted meta p.filePath))
      = patches := by
    rw [List.filter_eq_self]
    intro p hp
    rw [h p hp]
    rfl
  simp only [applyPatchesRun, hacc, hrej, List.isEmpty_nil, if_true]

/-- Concrete check of `applyPatches_all_rejected` on two rejected patches. -/
theorem applyPatches_all_rejected_witness :
    applyPatchesRun
      ⟨fun _ => .ok (), fun _ => .ok true, fun _ => .ok ()⟩
      [⟨"a", "o1", "p1"⟩, ⟨"b", "o2", "p2"⟩]
      { nodeStatusById := [], edgeStatusByKey := [],
        acceptedByFileId := [("a", false), ("b", false)] }
    = ({ applied := [], skipped := ["a", "b"],
         error := some noAcceptedMsg }, []) :=
  applyPatches_all_rejected
    ⟨fun _ => .ok (), fun _ => .ok true, fun _ => .ok ()⟩
    [⟨"a", "o1", "p1"⟩, ⟨"b", "o2", "p2"⟩]
    { nodeStatusById := [], edgeStatusByKey := [],
      acceptedByFileId := [("a", false), ("b", false)] }
    (by decide)

/-- C1: with at least one accepted patch, if the atomic commit reports
failure (applyEdit returns false) or any step throws, the result has
applied = [], a skipped list containing the file path of every patch
(accepted and rejected alike), and an error; no partial application is
exposed. -/
theorem applyPatches_atomic_failure (env : ApplyEnv)
    (patches : List FilePatch) (meta : DiffMeta)
    (hacc : patches.filter (fun p => isAccepted meta p.filePath) ≠ [])
    (hfail : runFails env
      (patches.filter (fun p => isAccepted meta p.filePath)) = true) :
    (applyPatches env patches meta).applied = [] ∧
    (∀ p ∈ patches, p.filePath ∈ (applyPatches env patches meta).skipped) ∧
    (applyPatches env patches meta).error.isSome = true := by
  have hne : ¬((patches.filter
      (fun p => isAccepted meta p.filePath)).isEmpty = true) := by
    rw [List.isEmpty_iff]
    exact hacc
  have hsplit : ∀ p ∈ patches,
      p ∈ patches.filter (fun p => isAccepted meta p.filePath) ∨
      p.filePath ∈ (patches.filter
        (fun p => !(isAccepted meta p.filePath))).map (·.filePath) := by
    intro p hp
    by_cases hap : isAccepted meta p.filePath = true
    · exact Or.inl (List.mem_filter.2 ⟨hp, hap⟩)
    · have hmem : p ∈ patches.filter (fun p => !(isAccepted meta p.filePath)) :=
        List.mem_filter.2 ⟨hp, by simp [hap]⟩
      exact Or.inr (List.mem_map_of_mem (fun q : FilePatch => q.filePath) hmem)
  unfold applyPatches applyPatchesRun
  rw [if_neg hne]
  unfold runFails at hfail
  rcases hopen : openAll env
      (patches.filter (fun p => isAccepted meta p.filePath))
    with ⟨effs, res⟩
  rw [hopen] at hfail
  cases res with
  | error m =>
    refine ⟨rfl, ?_, rfl⟩
    intro p hp
    exact List.mem_map_of_mem (fun q : FilePatch => q.filePath) hp
  | ok pr =>
    obtain ⟨as, ops⟩ := pr
    obtain ⟨has, -⟩ := openAll_ok env _ effs as ops hopen
    dsimp only
    dsimp only at hfail
    cases hedit : env.applyEdit ops with
    | error m =>
      refine ⟨rfl, ?_, rfl⟩
      intro p hp
      exact List.mem_map_of_mem (fun q : FilePatch => q.filePath) hp
    | ok b =>
      rw [hedit] at hfail
      cases b with
      | false =>
        refine ⟨rfl, ?_, rfl⟩
        intro p hp
        rw [List.mem_append]
        rcases hsplit p hp with hl | hr
        · refine Or.inl ?_
          rw [has]
          exact List.mem_map_of_mem (fun q : FilePatch => q.filePath) hl
        · exact Or.inr hr
      | true =>
        rcases hsave : saveAll env as with ⟨effs2, sres⟩
        cases sres with
        | error m =>
          refine ⟨rfl, ?_, rfl⟩
          intro p hp
          exact List.mem_map_of_mem (fun q : FilePatch => q.filePath) hp
        | ok u => simp [hsave] at hfail

/-- Concrete check of `applyPatches_atomic_failure`: one accepted patch, an
environment whose applyEdit reports failure. -/
theorem applyPatches_atomic_failure_witness :
    ((applyPatches
        ⟨fun _ => .ok (), fun _ => .ok false, fun _ => .ok ()⟩
        [⟨"a", "o1", "p1"⟩, ⟨"b", "o2", "p2"⟩]
        { nodeStatusById := [], edgeStatusByKey := [],
          acceptedByFileId := [("a", true), ("b", false)] }).applied = []) ∧
    (∀ p ∈ [(⟨"a", "o1", "p1"⟩ : FilePatch), ⟨"b", "o2", "p2"⟩],
      p.filePath ∈ (applyPatches
        ⟨fun _ => .ok (), fun _ => .ok false, fun _ => .ok ()⟩
        [⟨"a", "o1", "p1"⟩, ⟨"b", "o2", "p2"⟩]
        { nodeStatusById := [], edgeStatusByKey := [],
          acceptedByFileId := [("a", true), ("b", false)] }).skipped) ∧
    ((applyPatches
        ⟨fun _ => .ok (), fun _ => .ok false, fun _ => .ok ()⟩
        [⟨"a", "o1", "p1"⟩, ⟨"b", "o2", "p2"⟩]
        { nodeStatusById := [], edgeStatusByKey := [],
          acceptedByFileId := [("a", true), ("b", false)] }).error.isSome
      = true) :=
  applyPatches_atomic_failure
    ⟨fun _ => .ok (), fun _ => .ok false, fun _ => .ok ()⟩
    [⟨"a", "o1", "p1"⟩, ⟨"b", "o2", "p2"⟩]
    { nodeStatusById := [], edgeStatusByKey := [],
      acceptedByFileId := [("a", true), ("b", false)] }
    (by decide) (by decide)

/-! AgentService: plan generation and apply-phase contract. -/

theorem stepsFor_map_description (l : List String) :
    ∀ i, (stepsFor i l).map (·.description)
      = l.map (fun fp => "Modify " ++ fp) := by
  induction l with
  | nil => intro i; rfl
  | cons fp rest ih =>
    intro i
    simp only [stepsFor, List.map_cons, mkPlanStep, ih]

theorem stepsFor_map_filePath (l : List String) :
    ∀ i, (stepsFor i l).map (·.filePath) = l.map some := by
  induction l with
  | nil => intro i; rfl
  | cons fp rest ih =>
    intro i
    simp only [stepsFor, List.map_cons, mkPlanStep, ih]

theorem stepsFor_all_pending_modify (l : List String) :
    ∀ i, (stepsFor i l).all
      (fun st => st.status == StepStatus.pending &&
        st.type == StepType.modify) = true := by
  induction l with
  | nil => intro i; rfl
  | cons fp rest ih =>
    intro i
    simp only [stepsFor, List.all_cons, ih, mkPlanStep]
    rfl

theorem stepsFor_eq_nil_iff (i : Nat) (l : List String) :
    stepsFor i l = [] ↔ l = [] := by
  cases l <;> simp [stepsFor]

/-- C6: generatePlan always succeeds, sets (and leaves) the phase at
planning, stores the returned plan, and builds it deterministically: its
touchedFiles are the distinct context file paths, its steps are exactly one
pending modify step "Modify {path}" per distinct path, and with no context
a single pending placeholder step carries the raw request and no file
path. -/
theorem generatePlan_spec (s : AgentState) (userRequest : String)
    (context : List ContextItem) :
    (generatePlan s userRequest context).1.phase = .planning ∧
    (generatePlan s userRequest context).1.plan
      = some (generatePlan s userRequest context).2.1 ∧
    (generatePlan s userRequest context).2.1.touchedFiles
      = jsDedup (context.map (·.filePath)) ∧
    ((generatePlan s userRequest context).2.1.planSteps.map (·.description)
      = if context.isEmpty then [userRequest]
        else (generatePlan s userRequest context).2.1.touchedFiles.map
          (fun fp => "Modify " ++ fp)) ∧
    ((generatePlan s userRequest context).2.1.planSteps.map (·.filePath)
      = if context.isEmpty then [none]
        else (generatePlan s userRequest context).2.1.touchedFiles.map
          some) ∧
    ((generatePlan s userRequest context).2.1.planSteps.all
      (fun st => st.status == StepStatus.pending &&
        st.type == StepType.modify) = true) := by
  cases context with
  | nil =>
    refine ⟨rfl, rfl, rfl, ?_, ?_, ?_⟩ <;> rfl
  | cons c cs =>
    have htf : jsDedup ((c :: cs).map (·.filePath)) ≠ [] :=
      jsDedup_ne_nil _ (by simp)
    have hne : ((stepsFor 0 (jsDedup ((c :: cs).map (·.filePath)))).isEmpty
        = true) = False := by
      rw [List.isEmpty_iff, stepsFor_eq_nil_iff]
      simp only [eq_iff_iff, iff_false]
      exact htf
    refine ⟨rfl, rfl, ?_, ?_, ?_, ?_⟩ <;>
      simp only [generatePlan, hne, if_false, List.isEmpty_cons,
        stepsFor_map_description, stepsFor_map_filePath,
        stepsFor_all_pending_modify, if_neg, Bool.false_eq_true]

/-- C7: applyChanges without a current diff result reports the error
message, changes nothing and returns no result; with a diff result it ends
with phase idle and returns a result, whether or not the apply reported an
error. -/
theorem applyChanges_spec (env : ApplyEnv) (s : AgentState) :
    (s.diffResult = none →
      applyChanges env s = (s, none, [noDiffResultMsg])) ∧
    (s.diffResult ≠ none →
      (applyChanges env s).1.phase = .idle ∧
      (applyChanges env s).2.1 ≠ none) := by
  constructor
  · intro hd
    unfold applyChanges
    rw [hd]
  · intro hd
    cases hsd : s.diffResult with
    | none => exact absurd hsd hd
    | some dr =>
      unfold applyChanges
      rw [hsd]
      exact ⟨rfl, by simp⟩

/-- Concrete check of `applyChanges_spec`: a session-less state is returned
unchanged with the error message; a state holding a diff session ends
idle. -/
theorem applyChanges_spec_witness :
    (applyChanges ⟨fun _ => .ok (), fun _ => .ok true, fun _ => .ok ()⟩
        { phase := .reviewing, plan := none, diffResult := none }
      = ({ phase := .reviewing, plan := none, diffResult := none }, none,
         [noDiffResultMsg])) ∧
    ((applyChanges ⟨fun _ => .ok (), fun _ => .ok true, fun _ => .ok ()⟩
        { phase := .reviewing, plan := none,
          diffResult := some (computeDiff ⟨[], []⟩ ⟨[], []⟩ []) }).1.phase
      = .idle) :=
  ⟨(applyChanges_spec ⟨fun _ => .ok (), fun _ => .ok true, fun _ => .ok ()⟩
      { phase := .reviewing, plan := none, diffResult := none }).1 rfl,
   ((applyChanges_spec ⟨fun _ => .ok (), fun _ => .ok true, fun _ => .ok ()⟩
      { phase := .reviewing, plan := none,
        diffResult := some (computeDiff ⟨[], []⟩ ⟨[], []⟩ []) }).2
      (by simp)).1⟩

/-! DependencyExtractor: statelessness (C9) and containment edges (C8). -/

/-- C9: extractGraphData clears the instance maps first, so the snapshot it
returns is a function of the analysis result alone: two invocations on the
same result agree whatever the prior instance state, including when other
builds ran on the same instance in between. -/
theorem extractGraphData_stateless (st1 st2 : DependencyExtractor)
    (r : AnalysisResult) (others : List AnalysisResult) :
    ((extractGraphData st1 r).2 = (extractGraphData st2 r).2) ∧
    ((extractGraphData
        (others.foldl (fun st r' => (extractGraphData st r').1)
          (extractGraphData st1 r).1) r).2
      = (extractGraphData st1 r).2) ∧
    ((extractGraphData st1 r).2 = extractGraphDataPure r) :=
  ⟨rfl, rfl, rfl⟩

theorem foldl_preserve_mem {σ α : Type} (P : σ → Prop) (f : σ → α → σ) :
    ∀ (l : List α), (∀ s a, a ∈ l → P s → P (f s a)) →
      ∀ s, P s → P (l.foldl f s) := by
  intro l
  induction l with
  | nil => intro _ s hs; exact hs
  | cons a t ih =>
    intro h s hs
    exact ih (fun s' a' ha' hs' => h s' a' (List.mem_cons_of_mem a ha') hs')
      _ (h s a (List.mem_cons_self a t) hs)

/-- Uniqueness of node ids, the `nodeMap` key invariant. -/
def NodupIds (ns : List GraphNode) : Prop := (ns.map (·.id)).Nodup

theorem addNode_nodupIds {ns : List GraphNode} {n : GraphNode}
    (h : NodupIds ns) : NodupIds (addNode ns n) := by
  unfold addNode
  by_cases hany : ns.any (fun m => m.id == n.id) = true
  · rwa [if_pos hany]
  · rw [if_neg hany]
    unfold NodupIds
    rw [List.map_append]
    refine List.nodup_append.2 ⟨h, List.nodup_singleton _, ?_⟩
    intro x hx hxn
    rw [List.map_singleton, List.mem_singleton] at hxn
    rcases List.mem_map.1 hx with ⟨m, hm, hmx⟩
    rw [Bool.not_eq_true, List.any_eq_false] at hany
    have hne := hany m hm
    exact hne (by rw [hmx, hxn]; exact beq_self_eq_true n.id)

theorem addNode_mem {ns : List GraphNode} {n m : GraphNode}
    (h : m ∈ addNode ns n) : m ∈ ns ∨ m = n := by
  unfold addNode at h
  by_cases hany : ns.any (fun x => x.id == n.id) = true
  · rw [if_pos hany] at h; exact Or.inl h
  · rw [if_neg hany] at h
    rcases List.mem_append.1 h with h' | h'
    · exact Or.inl h'
    · exact Or.inr (List.mem_singleton.1 h')

theorem nodupIds_nodesAfterClasses (r : AnalysisResult) :
    NodupIds (nodesAfterClasses r) := by
  unfold nodesAfterClasses
  apply foldl_preserve_mem NodupIds _ _
    (fun ns cls _ hns =>
      foldl_preserve_mem NodupIds _ _
        (fun ns' m _ hns' => addNode_nodupIds hns')
        _ (addNode_nodupIds hns))
  apply foldl_preserve_mem NodupIds _ _
    (fun ns fn _ hns => addNode_nodupIds hns)
  apply foldl_preserve_mem NodupIds _ _
    (fun ns f _ hns => addNode_nodupIds hns)
  exact List.nodup_nil

theorem nodupIds_importStage (r : AnalysisResult) :
    NodupIds (importStage r).1 := by
  unfold importStage
  apply foldl_preserve_mem (fun st => NodupIds st.1) addImportEdges _ _ _
    (nodupIds_nodesAfterClasses r)
  intro st imp _ hst
  unfold addImportEdges
  by_cases hany : st.1.any
      (fun m => m.id == "file:" ++ imp.fromFile) = true
  · simpa [hany] using hst
  · simp only [hany, if_false]
    exact addNode_nodupIds hst

/-- Shape of every edge produced before the containment stage: an import,
extends or implements edge, with the matching id scheme. -/
def PreContainsShape (e : GraphEdge) : Prop :=
  (e.type = "import" ∧ ∃ s, e.id = "import:" ++ s) ∨
  (e.type = "extends" ∧ ∃ s, e.id = "extends:" ++ s) ∨
  (e.type = "implements" ∧ ∃ s, e.id = "implements:" ++ s)

theorem addEdge_all {P : GraphEdge → Prop} {es : List GraphEdge}
    {e : GraphEdge} (hall : ∀ f ∈ es, P f) (he : P e) :
    ∀ f ∈ addEdge es e, P f := by
  intro f hf
  unfold addEdge at hf
  by_cases hany : es.any (fun g => g.id == e.id) = true
  · rw [if_pos hany] at hf; exact hall f hf
  · rw [if_neg hany] at hf
    rcases List.mem_append.1 hf with h' | h'
    · exact hall f h'
    · rw [List.mem_singleton] at h'
      exact h' ▸ he

theorem shape_importStage (r : AnalysisResult) :
    ∀ e ∈ (importStage r).2, PreContainsShape e := by
  unfold importStage
  apply foldl_preserve_mem (fun st => ∀ e ∈ st.2, PreContainsShape e)
    addImportEdges _ _ _ (by intro e he; cases he)
  intro st imp _ hst
  unfold addImportEdges
  apply foldl_preserve_mem (fun es => ∀ e ∈ es, PreContainsShape e) _ _ _ _
    hst
  intro es name _ hes
  cases hfind : (if st.1.any (fun m =>
        m.id == "file:" ++ imp.fromFile) = true then st.1
      else addFileNode st.1 imp.fromFile).find? (fun n =>
        n.label == name && (n.type == "function" || n.type == "class")) with
  | none => exact hes
  | some tgt =>
    apply addEdge_all hes
    exact Or.inl ⟨rfl, ("file:" ++ imp.fromFile) ++ (":" ++ tgt.id),
      by simp [String.append_assoc]⟩

theorem addInheritanceEdges_shape (ns : List GraphNode)
    (es : List GraphEdge) (cls : ClassInfo)
    (hes : ∀ e ∈ es, PreContainsShape e) :
    ∀ e ∈ addInheritanceEdges ns es cls, PreContainsShape e := by
  unfold addInheritanceEdges
  apply foldl_preserve_mem (fun es => ∀ e ∈ es, PreContainsShape e)
  · intro es' iface _ hes'
    cases hfind : findNodeByName ns iface "interface" with
    | none => exact hes'
    | some ifaceId =>
      apply addEdge_all hes'
      exact Or.inr (Or.inr ⟨rfl,
        ("class:" ++ cls.filePath ++ ":" ++ cls.name) ++ (":" ++ ifaceId),
        by simp [String.append_assoc]⟩)
  · cases hx : cls.extendsClass with
    | none => exact hes
    | some parentName =>
      dsimp only
      cases hfind : findNodeByName ns parentName "class" with
      | none => exact hes
      | some parentId =>
        apply addEdge_all hes
        exact Or.inr (Or.inl ⟨rfl,
          ("class:" ++ cls.filePath ++ ":" ++ cls.name) ++ (":" ++ parentId),
          by simp [String.append_assoc]⟩)

theorem shape_inheritance (r : AnalysisResult) (ns : List GraphNode)
    (es0 : List GraphEdge) (h0 : ∀ e ∈ es0, PreContainsShape e) :
    ∀ e ∈ r.classes.foldl (addInheritanceEdges ns) es0,
      PreContainsShape e := by
  apply foldl_preserve_mem (fun es => ∀ e ∈ es, PreContainsShape e) _ _ _ _
    h0
  intro es cls _ hes
  exact addInheritanceEdges_shape ns es cls hes

theorem parent_id_ne_import_id (x y : String) :
    "parent:" ++ x ≠ "import:" ++ y := by
  intro h
  have hd := congrArg String.data h
  rw [String.data_append, String.data_append] at hd
  have h0 := congrArg (fun l => l.head?) hd
  simp at h0

theorem parent_id_ne_extends_id (x y : String) :
    "parent:" ++ x ≠ "extends:" ++ y := by
  intro h
  have hd := congrArg String.data h
  rw [String.data_append, String.data_append] at hd
  have h0 := congrArg (fun l => l.head?) hd
  simp at h0

theorem parent_id_ne_implements_id (x y : String) :
    "parent:" ++ x ≠ "implements:" ++ y := by
  intro h
  have hd := congrArg String.data h
  rw [String.data_append, String.data_append] at hd
  have h0 := congrArg (fun l => l.head?) hd
  simp at h0

/-- The (parentId, childId) pairs for which addContainsEdges attempts an
edge: nodes whose parentId resolves to an existing node. -/
def containsPairs (ns : List GraphNode) : List (String × String) :=
  ns.filterMap (fun n =>
    match n.parentId with
    | some p =>
      if ns.any (fun m => m.id == p) = true then some (p, n.id) else none
    | none => none)

/-- No two distinct containment pairs share the edge-id string
`parent:{parentId}:{childId}` (holds for every id scheme without crafted
colon collisions). -/
def containsIdInj (ns : List GraphNode) : Prop :=
  ∀ q1 ∈ containsPairs ns, ∀ q2 ∈ containsPairs ns,
    "parent:" ++ q1.1 ++ ":" ++ q1.2 = "parent:" ++ q2.1 ++ ":" ++ q2.2 →
    q1 = q2

theorem mem_containsPairs {ns : List GraphNode} {m : GraphNode} {q : String}
    (hm : m ∈ ns) (hq : m.parentId = some q)
    (hr : ns.any (fun x => x.id == q) = true) :
    (q, m.id) ∈ containsPairs ns := by
  unfold containsPairs
  rw [List.mem_filterMap]
  refine ⟨m, hm, ?_⟩
  show (match m.parentId with
    | some p =>
      if ns.any (fun x => x.id == p) = true then some (p, m.id) else none
    | none => none) = some (q, m.id)
  rw [hq]
  simp only [hr, if_true]

/-- The child-targeted reference-edge predicate used to count containment
edges from `p` to `n`. -/
def containsPred (p childId : String) (e : GraphEdge) : Bool :=
  e.source == p && e.target == childId && e.type == "reference"

theorem containsPred_containsEdge (p c : String) :
    containsPred p c (containsEdge p c) = true := by
  simp [containsPred, containsEdge]

theorem containsPred_false_of_target_ne {p c : String} {e : GraphEdge}
    (h : e.target ≠ c) : containsPred p c e = false := by
  unfold containsPred
  have : (e.target == c) = false := by simpa using h
  simp [this]

theorem containsPred_false_of_type {p c : String} {e : GraphEdge}
    (h : e.type ≠ "reference") : containsPred p c e = false := by
  unfold containsPred
  have : (e.type == "reference") = false := by simpa using h
  simp [this]

/-- One step of the addContainsEdges fold. -/
def containsStep (ns : List GraphNode) (es : List GraphEdge)
    (m : GraphNode) : List GraphEdge :=
  match m.parentId with
  | some q =>
    if ns.any (fun x => x.id == q) then addEdge es (containsEdge q m.id)
    else es
  | none => es

theorem addContainsEdges_eq_foldl (ns : List GraphNode)
    (es : List GraphEdge) :
    addContainsEdges ns es = ns.foldl (containsStep ns) es := rfl

theorem containsStep_filter_skip (ns : List GraphNode) (n : GraphNode)
    (p : String) (es : List GraphEdge) (m : GraphNode)
    (hmne : m.id ≠ n.id) :
    (containsStep ns es m).filter (containsPred p n.id)
      = es.filter (containsPred p n.id) := by
  unfold containsStep
  cases hq : m.parentId with
  | none => rfl
  | some q =>
    dsimp only
    by_cases hr : ns.any (fun x => x.id == q) = true
    · rw [if_pos hr]
      unfold addEdge
      by_cases hdup : es.any (fun g => g.id == (containsEdge q m.id).id) = true
      · rw [if_pos hdup]
      · rw [if_neg hdup, List.filter_append]
        have : containsPred p n.id (containsEdge q m.id) = false :=
          containsPred_false_of_target_ne hmne
        simp [this]
    · rw [if_neg hr]

theorem containsStep_id_skip (ns : List GraphNode) (n : GraphNode)
    (p : String) (es : List GraphEdge) (m : GraphNode)
    (hm : m ∈ ns) (hmne : m.id ≠ n.id)
    (hn : n ∈ ns) (hp : n.parentId = some p)
    (hres : ns.any (fun x => x.id == p) = true)
    (hinj : containsIdInj ns)
    (hcid : ("parent:" ++ p ++ ":" ++ n.id) ∉ es.map (·.id)) :
    ("parent:" ++ p ++ ":" ++ n.id) ∉ (containsStep ns es m).map (·.id) := by
  unfold containsStep
  cases hq : m.parentId with
  | none => exact hcid
  | some q =>
    dsimp only
    by_cases hr : ns.any (fun x => x.id == q) = true
    · rw [if_pos hr]
      unfold addEdge
      by_cases hdup : es.any (fun g => g.id == (containsEdge q m.id).id) = true
      · rw [if_pos hdup]; exact hcid
      · rw [if_neg hdup, List.map_append]
        rw [List.mem_append]
        rintro (h' | h')
        · exact hcid h'
        · rw [List.map_singleton, List.mem_singleton] at h'
          have hpairs := hinj (q, m.id)
            (mem_containsPairs hm hq hr) (p, n.id)
            (mem_containsPairs hn hp hres) h'.symm
          have : m.id = n.id := congrArg Prod.snd hpairs
          exact hmne this
    · rw [if_neg hr]; exact hcid

theorem containsFold_pre (ns : List GraphNode) (n : GraphNode) (p : String)
    (hn : n ∈ ns) (hp : n.parentId = some p)
    (hres : ns.any (fun x => x.id == p) = true)
    (hinj : containsIdInj ns)
    (l : List GraphNode) (hl : ∀ m ∈ l, m ∈ ns ∧ m.id ≠ n.id)
    (es0 : List GraphEdge)
    (h0 : es0.filter (containsPred p n.id) = [] ∧
      ("parent:" ++ p ++ ":" ++ n.id) ∉ es0.map (·.id)) :
    (l.foldl (containsStep ns) es0).filter (containsPred p n.id) = [] ∧
    ("parent:" ++ p ++ ":" ++ n.id)
      ∉ (l.foldl (containsStep ns) es0).map (·.id) := by
  apply foldl_preserve_mem (fun es =>
    es.filter (containsPred p n.id) = [] ∧
    ("parent:" ++ p ++ ":" ++ n.id) ∉ es.map (·.id)) (containsStep ns) l _
    es0 h0
  intro es m hm hP
  constructor
  · rw [containsStep_filter_skip ns n p es m (hl m hm).2]
    exact hP.1
  · exact containsStep_id_skip ns n p es m (hl m hm).1 (hl m hm).2 hn hp
      hres hinj hP.2

theorem containsFold_post (ns : List GraphNode) (n : GraphNode) (p : String)
    (l : List GraphNode) (hl : ∀ m ∈ l, m.id ≠ n.id)
    (es0 : List GraphEdge)
    (h0 : es0.filter (containsPred p n.id) = [containsEdge p n.id]) :
    (l.foldl (containsStep ns) es0).filter (containsPred p n.id)
      = [containsEdge p n.id] := by
  apply foldl_preserve_mem (fun es =>
    es.filter (containsPred p n.id) = [containsEdge p n.id])
    (containsStep ns) l _ es0 h0
  intro es m hm hP
  rw [containsStep_filter_skip ns n p es m (hl m hm)]
  exact hP

theorem containsFold_full (ns : List GraphNode) (n : GraphNode) (p : String)
    (hn : n ∈ ns) (hp : n.parentId = some p)
    (hres : ns.any (fun x => x.id == p) = true)
    (hinj : containsIdInj ns)
    (l : List GraphNode) (hlsub : ∀ m ∈ l, m ∈ ns)
    (hlids : (l.map (·.id)).Nodup) (hnl : n ∈ l)
    (es0 : List GraphEdge)
    (hfilter0 : es0.filter (containsPred p n.id) = [])
    (hcid0 : ("parent:" ++ p ++ ":" ++ n.id) ∉ es0.map (·.id)) :
    (l.foldl (containsStep ns) es0).filter (containsPred p n.id)
      = [containsEdge p n.id] := by
  obtain ⟨l1, l2, hsplit⟩ := List.append_of_mem hnl
  subst hsplit
  rw [List.map_append, List.map_cons, List.nodup_append] at hlids
  obtain ⟨hnd1, hnd2, hdisj⟩ := hlids
  rw [List.nodup_cons] at hnd2
  have hl1 : ∀ m ∈ l1, m ∈ ns ∧ m.id ≠ n.id := by
    intro m hm
    refine ⟨hlsub m (List.mem_append_left _ hm), ?_⟩
    intro hcontra
    have hmem : m.id ∈ l1.map (·.id) := List.mem_map_of_mem (·.id) hm
    have := hdisj hmem
    rw [hcontra] at this
    exact this (List.mem_cons_self _ _)
  have hl2 : ∀ m ∈ l2, m.id ≠ n.id := by
    intro m hm hcontra
    have hmem : m.id ∈ l2.map (·.id) := List.mem_map_of_mem (·.id) hm
    rw [hcontra] at hmem
    exact hnd2.1 hmem
  rw [List.foldl_append, List.foldl_cons]
  obtain ⟨hfil1, hcid1⟩ := containsFold_pre ns n p hn hp hres hinj l1 hl1
    es0 ⟨hfilter0, hcid0⟩
  set es1 := l1.foldl (containsStep ns) es0 with hes1
  have hstep : containsStep ns es1 n = es1 ++ [containsEdge p n.id] := by
    unfold containsStep
    rw [hp]
    dsimp only
    rw [if_pos hres]
    unfold addEdge
    have hany : es1.any (fun g => g.id == (containsEdge p n.id).id)
        = false := by
      rw [List.any_eq_false]
      intro g hg hbeq
      have hgid : g.id = (containsEdge p n.id).id := eq_of_beq hbeq
      have hid : (containsEdge p n.id).id = "parent:" ++ p ++ ":" ++ n.id :=
        rfl
      apply hcid1
      rw [← hid, ← hgid]
      exact List.mem_map_of_mem (·.id) hg
    rw [hany]
    simp
  rw [hstep]
  apply containsFold_post ns n p l2 hl2
  rw [List.filter_append, hfil1]
  simp [containsPred_containsEdge]

/-- C8 amended: for every node whose parentId resolves to an existing node,
provided distinct containment pairs have distinct edge-id strings (true for
every id scheme without crafted colon collisions), the built snapshot holds
exactly one containment edge from the parent to the child — and that edge's
kind is the `EdgeType.Reference` value "reference", labelled "contains",
with id `parent:{parentId}:{childId}`. -/
theorem contains_edge_amended (r : AnalysisResult) (n : GraphNode)
    (p : String)
    (hn : n ∈ (extractGraphDataPure r).nodes)
    (hp : n.parentId = some p)
    (hres : (extractGraphDataPure r).nodes.any (fun m => m.id == p) = true)
    (hinj : containsIdInj (extractGraphDataPure r).nodes) :
    ((extractGraphDataPure r).edges.filter (containsPred p n.id)
      = [containsEdge p n.id]) ∧
    containsEdge p n.id ∈ (extractGraphDataPure r).edges ∧
    (containsEdge p n.id).source = p ∧
    (containsEdge p n.id).target = n.id ∧
    (containsEdge p n.id).type = "reference" ∧
    (containsEdge p n.id).label = some "contains" := by
  have hshape : ∀ e ∈ r.classes.foldl (addInheritanceEdges (importStage r).1)
      (importStage r).2, PreContainsShape e :=
    shape_inheritance r (importStage r).1 (importStage r).2
      (shape_importStage r)
  have hassoc : "parent:" ++ p ++ ":" ++ n.id
      = "parent:" ++ (p ++ (":" ++ n.id)) := by
    simp [String.append_assoc]
  have hfil0 : (r.classes.foldl (addInheritanceEdges (importStage r).1)
      (importStage r).2).filter (containsPred p n.id) = [] := by
    rw [List.filter_eq_nil_iff]
    intro e he
    have htype : e.type ≠ "reference" := by
      rcases hshape e he with ⟨h1, -⟩ | ⟨h1, -⟩ | ⟨h1, -⟩ <;> rw [h1] <;>
        decide
    rw [containsPred_false_of_type htype]
    simp
  have hcid0 : ("parent:" ++ p ++ ":" ++ n.id)
      ∉ (r.classes.foldl (addInheritanceEdges (importStage r).1)
        (importStage r).2).map (·.id) := by
    intro hmem
    rcases List.mem_map.1 hmem with ⟨e, he, heid⟩
    rcases hshape e he with ⟨-, s, hid⟩ | ⟨-, s, hid⟩ | ⟨-, s, hid⟩
    · rw [hid] at heid
      rw [hassoc] at heid
      exact parent_id_ne_import_id (p ++ (":" ++ n.id)) s heid.symm
    · rw [hid] at heid
      rw [hassoc] at heid
      exact parent_id_ne_extends_id (p ++ (":" ++ n.id)) s heid.symm
    · rw [hid] at heid
      rw [hassoc] at heid
      exact parent_id_ne_implements_id (p ++ (":" ++ n.id)) s heid.symm
  have hmain : ((extractGraphDataPure r).edges.filter (containsPred p n.id)
      = [containsEdge p n.id]) := by
    show ((addContainsEdges (importStage r).1
        (r.classes.foldl (addInheritanceEdges (importStage r).1)
          (importStage r).2)).filter (containsPred p n.id)
      = [containsEdge p n.id])
    rw [addContainsEdges_eq_foldl]
    exact containsFold_full (importStage r).1 n p hn hp hres hinj
      (importStage r).1 (fun m hm => hm) (nodupIds_importStage r) hn
      _ hfil0 hcid0
  refine ⟨hmain, ?_, rfl, rfl, rfl, rfl⟩
  have : containsEdge p n.id ∈ (extractGraphDataPure r).edges.filter
      (containsPred p n.id) := by
    rw [hmain]
    exact List.mem_singleton.2 rfl
  exact List.mem_of_mem_filter this

/-- A one-file, one-function analysis result: the function node's parentId
resolves to the file node, producing one containment edge. -/
def rCex : AnalysisResult :=
  { files := [{ path := "a.ts" }],
    functions := [{ name := "foo", filePath := "a.ts", line := 1,
                    column := 1 }] }

/-- The function node of `rCex`'s snapshot. -/
def nCex : GraphNode :=
  { id := "function:a.ts:foo", label := "foo", type := "function",
    filePath := "a.ts", line := some 1, column := some 1,
    parentId := some "file:a.ts",
    metadata := some (.fnMeta false false []) }

/-- An analysis result whose two resolvable parent/child pairs produce the
same containment-edge id string `parent:file:a:function:a:function:a:g`:
pair (`file:a`, `function:a:function:a:function:a:g`) from the function
named `function:a:function:a:g` in file `a`, and pair (`file:a:function:a`,
`function:a:function:a:g`) from the function named `g` in file
`a:function:a`.  The edge map is keyed by that string with a first-writer
check, so the second pair gets no edge. -/
def rCol : AnalysisResult :=
  { files := [{ path := "a" }, { path := "a:function:a" }],
    functions := [{ name := "function:a:function:a:g", filePath := "a",
                    line := 1, column := 1 },
                  { name := "g", filePath := "a:function:a", line := 1,
                    column := 1 }] }

/-- C8 counterexample, both failure modes of the claim.  Kind: in the
snapshot built from `rCex` the containment edge from the file node to the
function node has kind "reference" (the `EdgeType.Reference` enum value),
not "contains", and no edge of the snapshot has kind "contains" (the TS
EdgeType enum has no such member).  Exactly-one: in the snapshot built from
`rCol` the node `function:a:function:a:g` carries parentId
`file:a:function:a`, which resolves to an existing node, yet the snapshot
holds no edge at all from that parent to that child — the colliding edge id
was claimed first by the other pair. -/
theorem contains_edge_counterexample :
    (∃ e ∈ (extractGraphDataPure rCex).edges,
      e.source = "file:a.ts" ∧ e.target = "function:a.ts:foo" ∧
      e.label = some "contains" ∧ e.type = "reference" ∧
      e.type ≠ "contains") ∧
    ((extractGraphDataPure rCex).edges.all
      (fun e => e.type != "contains") = true) ∧
    (∃ n ∈ (extractGraphDataPure rCol).nodes,
      n.id = "function:a:function:a:g" ∧
      n.parentId = some "file:a:function:a" ∧
      (extractGraphDataPure rCol).nodes.any
        (fun m => m.id == "file:a:function:a") = true) ∧
    ((extractGraphDataPure rCol).edges.all
      (fun e => !(e.source == "file:a:function:a" &&
        e.target == "function:a:function:a:g")) = true) := by
  decide

instance (ns : List GraphNode) : Decidable (containsIdInj ns) := by
  unfold containsIdInj
  infer_instance

/-- Concrete check of `contains_edge_amended` on the `rCex` snapshot. -/
theorem contains_edge_amended_witness :
    (extractGraphDataPure rCex).edges.filter
      (containsPred "file:a.ts" "function:a.ts:foo")
      = [containsEdge "file:a.ts" "function:a.ts:foo"] :=
  (contains_edge_amended rCex nCex "file:a.ts" (by decide) rfl (by decide)
    (by decide)).1

end Loggo
